import Mathlib

/-!
# Verification of the chatBotDjango context-assembly and provider-dispatch core

Shallow embedding of the `ChatService` text budgeting, tabular normalization,
context assembly, and AI-provider dispatch logic of the repository, together
with theorems settling the specification claims about them.

Python strings are modelled as Lean `String` (both measure length in Unicode
code points); Python slice expressions, including the negative-index wraparound
semantics, are modelled explicitly by `pySliceTo` / `pySliceFrom`.
-/

namespace ChatBot

/-! ## String groundwork -/

theorem str_data_append (a b : String) : (a ++ b).data = a.data ++ b.data := by
  cases a; cases b; rfl

theorem str_ext {a b : String} (h : a.data = b.data) : a = b := by
  cases a; cases b; exact congrArg String.mk h

theorem data_asString (l : List Char) : l.asString.data = l := rfl

theorem str_length_data (s : String) : s.length = s.data.length := rfl

theorem str_length_append (a b : String) : (a ++ b).length = a.length + b.length := by
  simp only [str_length_data, str_data_append, List.length_append]

theorem str_append_assoc (a b c : String) : a ++ b ++ c = a ++ (b ++ c) :=
  str_ext (by simp only [str_data_append, List.append_assoc])

theorem str_empty_append (a : String) : "" ++ a = a := by
  cases a; rfl

theorem str_append_empty (a : String) : a ++ "" = a :=
  str_ext (by simp only [str_data_append]; simp)

theorem str_length_asString (l : List Char) : l.asString.length = l.length := rfl

/-- `p` is a prefix of `l` (lists). -/
def listPre (p l : List Char) : Prop := ∃ q, l = p ++ q

/-- `p` is a prefix of `s` (Python-level: the returned prompt "opens with" `p`). -/
def strPre (p s : String) : Prop := ∃ q, s = p ++ q

theorem strPre_of_append (p r : String) : strPre p (p ++ r) := ⟨r, rfl⟩

theorem strPre_to_list {p s : String} (h : strPre p s) : listPre p.data s.data := by
  obtain ⟨q, hq⟩ := h
  exact ⟨q.data, by rw [hq, str_data_append]⟩

theorem strPre_of_list {p s : String} (h : listPre p.data s.data) : strPre p s := by
  obtain ⟨q, hq⟩ := h
  exact ⟨q.asString, str_ext (by rw [str_data_append, data_asString, hq])⟩

/-- Two prefixes of one list are comparable. -/
theorem listPre_total {a b l : List Char} (ha : listPre a l) (hb : listPre b l) :
    listPre a b ∨ listPre b a := by
  induction a generalizing b l with
  | nil => exact Or.inl ⟨b, rfl⟩
  | cons x xs ih =>
    obtain ⟨qa, hqa⟩ := ha
    obtain ⟨qb, hqb⟩ := hb
    cases b with
    | nil => exact Or.inr ⟨x :: xs, rfl⟩
    | cons y ys =>
      subst hqa
      simp only [List.cons_append] at hqb
      injection hqb with hxy htail
      rcases ih (l := xs ++ qa) ⟨qa, rfl⟩ ⟨qb, htail⟩ with ⟨q, hq⟩ | ⟨q, hq⟩
      · exact Or.inl ⟨q, by rw [← hxy, hq]; rfl⟩
      · exact Or.inr ⟨q, by rw [hxy, hq]; rfl⟩

/-- Two prefixes of one string are comparable. -/
theorem strPre_total {a b s : String} (ha : strPre a s) (hb : strPre b s) :
    strPre a b ∨ strPre b a := by
  rcases listPre_total (strPre_to_list ha) (strPre_to_list hb) with h | h
  · exact Or.inl (strPre_of_list h)
  · exact Or.inr (strPre_of_list h)

/-- Python slice `s[:i]` (negative `i` counts from the end, clamped at 0). -/
def pySliceTo (s : String) (i : Int) : String :=
  if 0 ≤ i then (s.data.take i.toNat).asString
  else (s.data.take (s.length - (-i).toNat)).asString

/-- Python slice `s[i:]` (negative `i` counts from the end, clamped at 0). -/
def pySliceFrom (s : String) (i : Int) : String :=
  if 0 ≤ i then (s.data.drop i.toNat).asString
  else (s.data.drop (s.length - (-i).toNat)).asString

/-! ## TextBudgeter (`src/chat/services.py`, `ChatService`) -/

/-- `ChatService.MAX_HISTORY_TOKENS` -/
def MAX_HISTORY_TOKENS : Nat := 1500

/-- `ChatService.MAX_USER_MESSAGE_TOKENS` -/
def MAX_USER_MESSAGE_TOKENS : Nat := 3000

/-- `ChatService.MAX_JSON_DATA_TOKENS` -/
def MAX_JSON_DATA_TOKENS : Nat := 2000

/-- `ChatService.estimate_token_count`: `math.ceil(len(text) / 4)`. -/
def estimate_token_count (text : String) : Nat := (text.length + 3) / 4

/-- `ChatService.truncate_text` (src/chat/services.py lines 21-32), including the
Python slice semantics of `text[: max_chars - 3]` and `text[-(max_chars - 3):]`. -/
def truncate_text (text : String) (max_tokens : Nat) (preserve_ending : Bool := false) :
    String :=
  let estimated_tokens := estimate_token_count text
  if estimated_tokens ≤ max_tokens then text
  else
    let max_chars : Int := (max_tokens : Int) * 4
    if preserve_ending then "..." ++ pySliceFrom text (-(max_chars - 3))
    else pySliceTo text (max_chars - 3) ++ "..."

example : truncate_text "abcdefghij" 0 false = "abcdefg..." := by decide
example : truncate_text "abcdefghij" 0 true = "...defghij" := by decide
example : truncate_text "abcdefghij" 1 false = "a..." := by decide
example : truncate_text "abcdefghij" 1 true = "...j" := by decide
example : truncate_text "abc" 1 = "abc" := by decide

theorem truncate_of_le {s : String} {N : Nat} (h : estimate_token_count s ≤ N)
    (pe : Bool) : truncate_text s N pe = s := by
  simp [truncate_text, h]

/-- After a genuine truncation with budget `N ≥ 1` the result estimates to at most `N`. -/
theorem estimate_truncate_le {text : String} {N : Nat} (h1 : 1 ≤ N) (pe : Bool) :
    estimate_token_count (truncate_text text N pe) ≤ N := by
  by_cases hle : estimate_token_count text ≤ N
  · rw [truncate_of_le hle]; exact hle
  · have hlen : 4 * N + 1 ≤ text.length := by
      unfold estimate_token_count at hle; omega
    simp only [truncate_text, if_neg hle]
    cases pe with
    | false =>
      have hpos : (0 : Int) ≤ (N : Int) * 4 - 3 := by omega
      simp only [Bool.false_eq_true, if_false, pySliceTo, if_pos hpos]
      have htn : ((N : Int) * 4 - 3).toNat = 4 * N - 3 := by omega
      rw [htn]
      have h3 : ("..." : String).length = 3 := by decide
      rw [estimate_token_count, str_length_append, str_length_asString,
        List.length_take, h3, ← str_length_data]
      omega
    | true =>
      have hneg : ¬ (0 : Int) ≤ -((N : Int) * 4 - 3) := by omega
      simp only [if_true, pySliceFrom, if_neg hneg]
      have htn : (-(-((N : Int) * 4 - 3))).toNat = 4 * N - 3 := by omega
      rw [htn]
      have h3 : ("..." : String).length = 3 := by decide
      rw [estimate_token_count, str_length_append, str_length_asString,
        List.length_drop, h3, ← str_length_data]
      omega

/-- C9: `ChatService.truncate_text` is idempotent for every budget `N ≥ 1`, for either
`preserve_ending` flag: truncating an already-truncated text returns it unchanged. -/
theorem truncate_idempotent (text : String) (N : Nat) (pe : Bool) (h : 1 ≤ N) :
    truncate_text (truncate_text text N pe) N pe = truncate_text text N pe :=
  truncate_of_le (estimate_truncate_le h pe) pe

/-- Witness for C9 at a concrete over-budget input and budget 2. -/
theorem truncate_idempotent_witness :
    1 ≤ 2 ∧
      truncate_text (truncate_text "abcdefghijklm" 2 false) 2 false =
        truncate_text "abcdefghijklm" 2 false :=
  ⟨by decide, truncate_idempotent "abcdefghijklm" 2 false (by decide)⟩

/-- C4 counterexample: with `max_tokens = 0` (so `max_chars = 0 ≤ 3`) and the ten-character
text `"abcdefghij"` (estimated at 3 > 0 tokens), `truncate_text` does not clamp the kept
slice to length 0: the head-mode result is `"abcdefg..."` (10 characters, not at most the
3-character marker), and the tail-mode result is `"...defghij"`. -/
theorem truncate_clamp_counterexample :
    estimate_token_count "abcdefghij" = 3 ∧ 0 < estimate_token_count "abcdefghij" ∧
      (0 : Nat) * 4 ≤ 3 ∧
      truncate_text "abcdefghij" 0 false = "abcdefg..." ∧
      truncate_text "abcdefghij" 0 true = "...defghij" ∧
      ¬ (truncate_text "abcdefghij" 0 false).length ≤ 3 := by
  refine ⟨by decide, by decide, by decide, by decide, by decide, by decide⟩

/-- C4 amended: for every over-budget text with `max_chars = max_tokens * 4 ≤ 3`
(only `max_tokens = 0` qualifies, and any non-empty text is then over budget),
`truncate_text` returns without raising, but the kept slice is not clamped to length 0:
the negative Python slice index wraps around, so head mode keeps all but the last three
characters of the text plus `"..."`, tail mode keeps `"..."` plus all but the first three
characters, and either result has length `(len(text) - 3) + 3` — the full original length
whenever `len(text) ≥ 3`. -/
theorem truncate_no_clamp (text : String) (h : text ≠ "") :
    truncate_text text 0 false = (text.data.take (text.length - 3)).asString ++ "..." ∧
      truncate_text text 0 true = "..." ++ (text.data.drop 3).asString ∧
      (truncate_text text 0 false).length = (text.length - 3) + 3 ∧
      (truncate_text text 0 true).length = (text.length - 3) + 3 := by
  have hlen : 1 ≤ text.length := by
    rcases Nat.eq_zero_or_pos text.length with h0 | h0
    · exact absurd (str_ext (List.length_eq_zero.mp h0)) h
    · exact h0
  have hgt : ¬ estimate_token_count text ≤ 0 := by
    unfold estimate_token_count; omega
  have hito : ((0 : Nat) : Int) * 4 - 3 = -3 := by omega
  have c1 : truncate_text text 0 false = (text.data.take (text.length - 3)).asString ++ "..." := by
    simp only [truncate_text, if_neg hgt, Bool.false_eq_true, if_false, hito, pySliceTo,
      if_neg (by omega : ¬ (0 : Int) ≤ -3)]
    rfl
  have c2 : truncate_text text 0 true = "..." ++ (text.data.drop 3).asString := by
    simp only [truncate_text, if_neg hgt, if_true, hito, pySliceFrom,
      if_pos (by omega : (0 : Int) ≤ -(-3 : Int))]
    rfl
  have h3 : ("..." : String).length = 3 := by decide
  refine ⟨c1, c2, ?_, ?_⟩
  · rw [c1, str_length_append, str_length_asString, List.length_take, h3, ← str_length_data]
    omega
  · rw [c2, str_length_append, str_length_asString, List.length_drop, h3, ← str_length_data]
    omega

/-- Witness for the amended C4 at the concrete text `"abcdefghij"`. -/
theorem truncate_no_clamp_witness :
    "abcdefghij" ≠ "" ∧
      (truncate_text "abcdefghij" 0 false).length = ("abcdefghij".length - 3) + 3 :=
  ⟨by decide, (truncate_no_clamp "abcdefghij" (by decide)).2.2.1⟩

/-! ## JSON values

Already-parsed Python JSON data (what `session_config["jsonData"]` holds after
`json.loads`): `None`, `bool`, `int`, `str`, `list`, `dict` with string keys in
insertion order. Floats do not occur in any claim and are omitted. -/

inductive JVal where
  | null
  | bool (b : Bool)
  | int (n : Int)
  | str (s : String)
  | arr (elems : List JVal)
  | obj (fields : List (String × JVal))

/-- The exception kind relevant here: `item.get(...)` / `obj.items()` on a non-dict. -/
inductive PyErr where
  | attributeError
  deriving DecidableEq

/-- Escape used inside `pyRepr` of a string (model of CPython `repr(str)` for the
common case: single-quote delimiters, backslash escapes for quote, backslash and
control characters; the double-quote-delimiter special case of CPython is not
modelled since no claim exercises it). -/
def pyReprStrEscape (c : Char) : String :=
  if c = '\\' then "\\\\"
  else if c = '\x27' then "\\\x27"
  else if c = '\n' then "\\n"
  else if c = '\t' then "\\t"
  else if c = '\r' then "\\r"
  else String.singleton c

/-- Model of CPython `repr` on a string value. -/
def pyReprStr (s : String) : String :=
  "\x27" ++ String.join (s.data.map pyReprStrEscape) ++ "\x27"

mutual

/-- Model of Python `repr` on JSON-like values (used by `str()` on containers). -/
def pyRepr : JVal → String
  | .null => "None"
  | .bool true => "True"
  | .bool false => "False"
  | .int n => toString n
  | .str s => pyReprStr s
  | .arr xs => "[" ++ pyReprList xs ++ "]"
  | .obj fs => "\x7b" ++ pyReprFields fs ++ "\x7d"

def pyReprList : List JVal → String
  | [] => ""
  | [x] => pyRepr x
  | x :: y :: xs => pyRepr x ++ ", " ++ pyReprList (y :: xs)

def pyReprFields : List (String × JVal) → String
  | [] => ""
  | [(k, v)] => pyReprStr k ++ ": " ++ pyRepr v
  | (k, v) :: f :: fs => pyReprStr k ++ ": " ++ pyRepr v ++ ", " ++ pyReprFields (f :: fs)

end

/-- Model of Python `str()` on JSON-like values: identity on strings, `repr`-style
otherwise (`None` → `"None"`, `True`/`False`, decimal integers, container reprs). -/
def pyStrVal : JVal → String
  | .str s => s
  | v => pyRepr v

/-- Python truthiness of a JSON-like value. -/
def pyTruthy : JVal → Bool
  | .null => false
  | .bool b => b
  | .int n => n ≠ 0
  | .str s => s ≠ ""
  | .arr xs => !xs.isEmpty
  | .obj fs => !fs.isEmpty

/-- Python `d.get(k)` on a dict in insertion order (`None` when absent). -/
def pyDictGet (fields : List (String × JVal)) (k : String) : Option JVal :=
  List.lookup k fields

/-- Python `d.get(k, default)`. -/
def pyDictGetD (fields : List (String × JVal)) (k : String) (d : JVal) : JVal :=
  (pyDictGet fields k).getD d

/-- Is the value a Python dict? (`isinstance(value, dict)`) -/
def isObj : JVal → Bool
  | .obj _ => true
  | _ => false

/-- Fields of a dict value (`[]` for non-dicts; callers guard with `isObj`). -/
def objFields : JVal → List (String × JVal)
  | .obj fs => fs
  | _ => []

/-- Bool test for `needle in hay` on Python strings (substring containment). -/
def listInfixB (n : List Char) : List Char → Bool
  | [] => n.isEmpty
  | c :: t => n.isPrefixOf (c :: t) || listInfixB n t

def strInB (needle hay : String) : Bool := listInfixB needle.data hay.data

example : strInB "..." "ab...cd" = true := by decide
example : strInB "..." "ab..cd" = false := by decide

/-! ## TabularNormalizer (`src/chat/services.py`, `convert_array_to_csv` /
`process_json_data_to_csv`) -/

/-- One CSV cell of `ChatService.convert_array_to_csv`:
`value = item.get(col)`; a string containing a comma is wrapped in double quotes,
`None`/missing becomes the literal `"0"`, anything else is `str(value)`. -/
def cellString (fields : List (String × JVal)) (col : String) : String :=
  match pyDictGet fields col with
  | some (.str s) => if strInB "," s then "\"" ++ s ++ "\"" else s
  | some .null => "0"
  | some v => pyStrVal v
  | none => "0"

/-- One CSV data row: the cells for `all_columns`, joined by commas, plus newline. -/
def rowString (cols : List String) (fields : List (String × JVal)) : String :=
  String.intercalate "," (cols.map (cellString fields)) ++ "\n"

/-- The data rows of `convert_array_to_csv`: `item.get(col)` on a non-dict element
raises `AttributeError`. -/
def convRows (cols : List String) : List JVal → Except PyErr String
  | [] => .ok ""
  | item :: rest =>
    match item with
    | .obj fields => do
      let restRows ← convRows cols rest
      .ok (rowString cols fields ++ restRows)
    | _ => .error .attributeError

/-- `ChatService.convert_array_to_csv` (src/chat/services.py lines 34-64).
Returns `none` for an empty array or one whose first element is not a dict;
columns come from the first element's keys. -/
def convert_array_to_csv (data_array : List JVal) : Except PyErr (Option String) :=
  match data_array with
  | [] => .ok none
  | first :: _ =>
    match first with
    | .obj fields0 => do
      let all_columns := fields0.map Prod.fst
      let header := String.intercalate "," all_columns ++ "\n"
      let body ← convRows all_columns data_array
      .ok (some (header ++ body))
    | _ => .ok none

/-- One entry of the `csv_data` mapping built by `process_json_data_to_csv`. -/
structure CsvSection where
  csv : String
  originalLength : Nat
  name : String

/- The `traverse` closure of `ChatService.process_json_data_to_csv`
(src/chat/services.py lines 66-89), acting on the deep clone: array-of-dict fields
are replaced by the placeholder string and recorded as CSV sections (in traversal
order, keyed by dot-path); nested dicts are traversed recursively; arrays are not
entered. -/
mutual

/-- The `traverse` treatment of one field value (`key` and `path` give the dot-path):
a list value is CSV-converted and, when the csv is truthy, replaced by the
placeholder and recorded; a dict value is traversed recursively; anything else
is left untouched. -/
def traverseVal (path key : String) :
    JVal → Except PyErr (JVal × List (String × CsvSection))
  | .arr xs => do
    let current_path := if path = "" then key else path ++ "." ++ key
    let csv ← convert_array_to_csv xs
    match csv with
    | some s =>
      if s ≠ "" then
        .ok (.str ("[See CSV data for " ++ key ++ " below]"),
          [(current_path, ⟨s, xs.length, key⟩)])
      else .ok (.arr xs, [])
    | none => .ok (.arr xs, [])
  | .obj fields => do
    let current_path := if path = "" then key else path ++ "." ++ key
    let (fields', secs) ← traverseFields current_path fields
    .ok (.obj fields', secs)
  | v => .ok (v, [])

/-- `traverse`'s loop over `obj.items()`. -/
def traverseFields (path : String) :
    List (String × JVal) → Except PyErr (List (String × JVal) × List (String × CsvSection))
  | [] => .ok ([], [])
  | (key, value) :: rest => do
    let (v', secs1) ← traverseVal path key value
    let (rest', secs2) ← traverseFields path rest
    .ok ((key, v') :: rest', secs1 ++ secs2)

end

/-- `ChatService.process_json_data_to_csv`: deep-clones the input
(`json.loads(json.dumps(data))`; on the value level the clone is the value itself —
the heap-level frame property is proved separately below) and traverses it. -/
def process_json_data_to_csv (data : List (String × JVal)) :
    Except PyErr (List (String × JVal) × List (String × CsvSection)) :=
  traverseFields "" data

/-- Concatenation of a list of strings. -/
def strConcat (l : List String) : String := l.foldr (· ++ ·) ""

theorem convRows_all_obj (cols : List String) (xs : List JVal)
    (h : ∀ x ∈ xs, isObj x = true) :
    convRows cols xs = .ok (strConcat (xs.map fun it => rowString cols (objFields it))) := by
  induction xs with
  | nil => rfl
  | cons x rest ih =>
    have hx := h x (by simp)
    cases x with
    | obj f =>
      have ihr := ih (fun y hy => h y (by simp [hy]))
      simp only [convRows, ihr, List.map_cons, strConcat, List.foldr_cons]
      rfl
    | null => simp [isObj] at hx
    | bool b => simp [isObj] at hx
    | int n => simp [isObj] at hx
    | str s => simp [isObj] at hx
    | arr l => simp [isObj] at hx

theorem convRows_err (cols : List String) (xs : List JVal)
    (h : ∃ v ∈ xs, isObj v = false) :
    convRows cols xs = .error .attributeError := by
  induction xs with
  | nil => simp at h
  | cons x rest ih =>
    cases x with
    | obj f =>
      obtain ⟨v, hv, hvo⟩ := h
      rcases List.mem_cons.mp hv with rfl | hvr
      · simp [isObj] at hvo
      · simp only [convRows, ih ⟨v, hvr, hvo⟩]
        rfl
    | null => rfl
    | bool b => rfl
    | int n => rfl
    | str s => rfl
    | arr l => rfl

/-- C8: CSV conversion derives its columns from the first element's keys only; the
header row is the columns joined by commas; each data row is, per column, the
stringified cell value with `None`/missing rendered as `"0"` and double-quote
wrapping applied exactly when the value is a string containing a comma; and the
concrete campaigns example produces exactly one CSV section with csv text
`"name,spend\nA,100\nB,200\n"` and the placeholder-rewritten object. -/
theorem csv_conversion :
    (process_json_data_to_csv
        [("campaigns", .arr [.obj [("name", .str "A"), ("spend", .int 100)],
          .obj [("name", .str "B"), ("spend", .int 200)]])] =
      .ok ([("campaigns", .str "[See CSV data for campaigns below]")],
        [("campaigns", ⟨"name,spend\nA,100\nB,200\n", 2, "campaigns"⟩)])) ∧
    (∀ (fields0 : List (String × JVal)) (rest : List JVal),
      (∀ x ∈ rest, isObj x = true) →
      convert_array_to_csv (.obj fields0 :: rest) =
        .ok (some (String.intercalate "," (fields0.map Prod.fst) ++ "\n" ++
          strConcat ((JVal.obj fields0 :: rest).map
            (fun it => rowString (fields0.map Prod.fst) (objFields it)))))) ∧
    (∀ fields col, pyDictGet fields col = none → cellString fields col = "0") ∧
    (∀ fields col, pyDictGet fields col = some .null → cellString fields col = "0") ∧
    (∀ fields col s, pyDictGet fields col = some (.str s) → strInB "," s = false →
      cellString fields col = s) ∧
    (∀ fields col s, pyDictGet fields col = some (.str s) → strInB "," s = true →
      cellString fields col = "\"" ++ s ++ "\"") ∧
    (∀ fields col n, pyDictGet fields col = some (.int n) →
      cellString fields col = toString n) := by
  refine ⟨by rfl, ?_, ?_, ?_, ?_, ?_, ?_⟩
  · intro fields0 rest h
    have hall : ∀ x ∈ JVal.obj fields0 :: rest, isObj x = true := by
      intro x hx
      rcases List.mem_cons.mp hx with rfl | hxr
      · rfl
      · exact h x hxr
    simp only [convert_array_to_csv, convRows_all_obj _ _ hall]
    rfl
  · intro fields col h; simp [cellString, h]
  · intro fields col h; simp [cellString, h]
  · intro fields col s h hc; simp [cellString, h, hc]
  · intro fields col s h hc; simp [cellString, h, hc]
  · intro fields col n h; simp [cellString, h, pyStrVal, pyRepr]

/-- Witness for C8: the universally quantified clauses applied at concrete inputs. -/
theorem csv_conversion_witness :
    convert_array_to_csv [JVal.obj [("a", .int 1)], .obj [("b", .str "x,y")]] =
      .ok (some ("a\n1\n0\n")) ∧
    cellString [("a", .str "x,y")] "a" = "\"x,y\"" ∧
    cellString [("a", .null)] "a" = "0" ∧
    cellString [] "a" = "0" := by
  refine ⟨?_, ?_, ?_, ?_⟩
  · have h := csv_conversion.2.1 [("a", JVal.int 1)] [.obj [("b", .str "x,y")]]
      (by intro x hx; simp at hx; subst hx; rfl)
    rw [h]; rfl
  · exact csv_conversion.2.2.2.2.2.1 _ "a" "x,y" rfl rfl
  · exact csv_conversion.2.2.2.1 _ "a" rfl
  · exact csv_conversion.2.2.1 [] "a" rfl

/-- C10: whether an array is converted is decided solely by its first element — if the
first element is a dict but some later element is not, `convert_array_to_csv` (and
hence `process_json_data_to_csv` on an object containing such an array) raises
`AttributeError` (reachable error branch), instead of skipping or serializing the
array. -/
theorem mixed_array_raises (fields0 : List (String × JVal)) (xs : List JVal)
    (h : ∃ v ∈ xs, isObj v = false) :
    convert_array_to_csv (.obj fields0 :: xs) = .error .attributeError ∧
    ∀ key, process_json_data_to_csv [(key, .arr (.obj fields0 :: xs))] =
      .error .attributeError := by
  have hc : convert_array_to_csv (.obj fields0 :: xs) = .error .attributeError := by
    simp only [convert_array_to_csv,
      convRows_err (fields0.map Prod.fst) (JVal.obj fields0 :: xs)
        (by obtain ⟨v, hv, hvo⟩ := h; exact ⟨v, by simp [hv], hvo⟩)]
    rfl
  refine ⟨hc, fun key => ?_⟩
  simp only [process_json_data_to_csv, traverseFields, traverseVal, hc]
  rfl

/-- Witness for C10 at the concrete mixed array `[{"name": "A"}, 5]`. -/
theorem mixed_array_raises_witness :
    convert_array_to_csv [.obj [("name", .str "A")], .int 5] = .error .attributeError ∧
    process_json_data_to_csv [("items", .arr [.obj [("name", .str "A")], .int 5])] =
      .error .attributeError := by
  have h := mixed_array_raises [("name", .str "A")] [.int 5] ⟨.int 5, by simp, rfl⟩
  exact ⟨h.1, h.2 "items"⟩


/-! ## Conversation history (`build_context_prompt`, src/chat/services.py lines 161-179) -/

/-- One conversation-history message (`{"role": ..., "content": ...}`). -/
structure Message where
  role : String
  content : String

/-- `msg_text = f"{msg['role']}: {msg['content']}\n"` -/
def msgLine (m : Message) : String := m.role ++ ": " ++ m.content ++ "\n"

/-- The history loop of `build_context_prompt`: walk the reversed history
(most recent first), prepending each formatted line to the running buffer,
stopping before the first line whose tokens would push the running total over
`MAX_HISTORY_TOKENS`. -/
def historyGo : List Message → String → Nat → String
  | [], acc, _ => acc
  | m :: rest, acc, current_tokens =>
    if current_tokens + estimate_token_count (msgLine m) > MAX_HISTORY_TOKENS then acc
    else historyGo rest (msgLine m ++ acc) (current_tokens + estimate_token_count (msgLine m))

/-- `history_text` as built by `build_context_prompt`. -/
def buildHistoryText (conversation_history : List Message) : String :=
  historyGo conversation_history.reverse "" 0

/-- `history_section`: `"Previous conversation:\n" + history_text` when any message
fit, empty otherwise. -/
def history_section (conversation_history : List Message) : String :=
  if buildHistoryText conversation_history ≠ "" then
    "Previous conversation:\n" ++ buildHistoryText conversation_history
  else ""

/-- Number of messages the history loop keeps, walking `rev` (most recent first). -/
def keepCount : List Message → Nat → Nat
  | [], _ => 0
  | m :: rest, current_tokens =>
    if current_tokens + estimate_token_count (msgLine m) > MAX_HISTORY_TOKENS then 0
    else keepCount rest (current_tokens + estimate_token_count (msgLine m)) + 1

/-- The number of (most recent) messages included in the history block. -/
def includedCount (conversation_history : List Message) : Nat :=
  keepCount conversation_history.reverse 0

/-- Chronological concatenation of the formatted lines of `ms`. -/
def linesJoin (ms : List Message) : String := ms.foldr (fun m acc => msgLine m ++ acc) ""

/-- Sum of the token estimates of the formatted lines of `ms`. -/
def tokSum (ms : List Message) : Nat :=
  (ms.map (fun m => estimate_token_count (msgLine m))).sum

theorem linesJoin_append (a b : List Message) :
    linesJoin (a ++ b) = linesJoin a ++ linesJoin b := by
  induction a with
  | nil => simp [linesJoin, str_empty_append]
  | cons x xs ih =>
    simp only [linesJoin, List.foldr_cons, List.cons_append] at *
    rw [ih, str_append_assoc]

theorem msgLine_tokens_pos (m : Message) : 1 ≤ estimate_token_count (msgLine m) := by
  have h1 : 1 ≤ (msgLine m).length := by
    simp only [msgLine, str_length_append]
    have h2 : (": " : String).length = 2 := rfl
    omega
  unfold estimate_token_count
  omega

theorem tokSum_reverse (ms : List Message) : tokSum ms.reverse = tokSum ms := by
  simp [tokSum, List.sum_reverse]

theorem keepCount_le (rev : List Message) (cur : Nat) : keepCount rev cur ≤ rev.length := by
  induction rev generalizing cur with
  | nil => simp [keepCount]
  | cons m rest ih =>
    by_cases hgt : cur + estimate_token_count (msgLine m) > MAX_HISTORY_TOKENS
    · simp [keepCount, if_pos hgt]
    · simp only [keepCount, if_neg hgt, List.length_cons]
      have := ih (cur + estimate_token_count (msgLine m))
      omega

theorem historyGo_join (rev : List Message) (acc : String) (cur : Nat) :
    historyGo rev acc cur = linesJoin ((rev.take (keepCount rev cur)).reverse) ++ acc := by
  induction rev generalizing acc cur with
  | nil => simp [historyGo, keepCount, linesJoin, str_empty_append]
  | cons m rest ih =>
    by_cases hgt : cur + estimate_token_count (msgLine m) > MAX_HISTORY_TOKENS
    · simp [historyGo, keepCount, if_pos hgt, linesJoin, str_empty_append]
    · simp only [historyGo, keepCount, if_neg hgt]
      rw [ih]
      rw [List.take_succ_cons, List.reverse_cons, linesJoin_append]
      have h1 : linesJoin [m] = msgLine m := by
        simp [linesJoin, str_append_empty]
      rw [h1, str_append_assoc]

theorem keepCount_tokSum_le (rev : List Message) (cur : Nat)
    (h : cur ≤ MAX_HISTORY_TOKENS) :
    cur + tokSum (rev.take (keepCount rev cur)) ≤ MAX_HISTORY_TOKENS := by
  induction rev generalizing cur with
  | nil => simpa [keepCount, tokSum]
  | cons m rest ih =>
    by_cases hgt : cur + estimate_token_count (msgLine m) > MAX_HISTORY_TOKENS
    · simpa [keepCount, if_pos hgt, tokSum]
    · simp only [keepCount, if_neg hgt, List.take_succ_cons, tokSum, List.map_cons,
        List.sum_cons]
      have hrec := ih (cur + estimate_token_count (msgLine m)) (by omega)
      simp only [tokSum] at hrec
      omega

theorem keepCount_overflow (rev : List Message) (cur : Nat)
    (h : keepCount rev cur < rev.length) :
    MAX_HISTORY_TOKENS < cur + tokSum (rev.take (keepCount rev cur + 1)) := by
  induction rev generalizing cur with
  | nil => simp [keepCount] at h
  | cons m rest ih =>
    by_cases hgt : cur + estimate_token_count (msgLine m) > MAX_HISTORY_TOKENS
    · simp only [keepCount, if_pos hgt, Nat.zero_add, List.take_succ_cons,
        List.take_zero, tokSum, List.map_cons, List.map_nil, List.sum_cons, List.sum_nil]
      omega
    · simp only [keepCount, if_neg hgt, List.length_cons] at h
      have hrec := ih (cur + estimate_token_count (msgLine m)) (by omega)
      simp only [keepCount, if_neg hgt, List.take_succ_cons, tokSum, List.map_cons,
        List.sum_cons]
      simp only [tokSum] at hrec
      omega

theorem keepCount_uniform (rev : List Message) (cur : Nat) (T : Nat)
    (hT : ∀ m ∈ rev, estimate_token_count (msgLine m) = T) :
    keepCount rev cur = min rev.length ((MAX_HISTORY_TOKENS - cur) / T) := by
  induction rev generalizing cur with
  | nil => simp [keepCount]
  | cons m rest ih =>
    have hTm : estimate_token_count (msgLine m) = T := hT m (by simp)
    have hTpos : 1 ≤ T := hTm ▸ msgLine_tokens_pos m
    by_cases hgt : cur + T > MAX_HISTORY_TOKENS
    · have hdiv : (MAX_HISTORY_TOKENS - cur) / T = 0 := by
        apply Nat.div_eq_of_lt; omega
      simp only [keepCount, hTm, if_pos hgt, List.length_cons, hdiv]
      omega
    · simp only [keepCount, hTm, if_neg hgt, List.length_cons]
      rw [ih (cur + T) (fun x hx => hT x (by simp [hx]))]
      have hTle : T ≤ MAX_HISTORY_TOKENS - cur := by omega
      have hdiv : (MAX_HISTORY_TOKENS - cur) / T =
          (MAX_HISTORY_TOKENS - (cur + T)) / T + 1 := by
        rw [Nat.div_eq_sub_div hTpos hTle]
        have hsub : MAX_HISTORY_TOKENS - cur - T = MAX_HISTORY_TOKENS - (cur + T) := by
          omega
        rw [hsub]
      rw [hdiv]
      omega

theorem take_reverse_eq_drop (l : List Message) (k : Nat) (hk : k ≤ l.length) :
    (l.reverse.take k).reverse = l.drop (l.length - k) := by
  induction l with
  | nil => simp
  | cons x xs ih =>
    rcases Nat.lt_or_ge k (xs.length + 1) with hlt | hge
    · have hk' : k ≤ xs.length := by omega
      have htk : (x :: xs).reverse.take k = xs.reverse.take k := by
        rw [List.reverse_cons, List.take_append_of_le_length (by simpa using hk')]
      rw [htk, ih hk']
      have hlen : (x :: xs).length - k = (xs.length - k) + 1 := by
        simp only [List.length_cons]; omega
      rw [hlen, List.drop_succ_cons]
    · have hkeq : k = xs.length + 1 := by
        simp only [List.length_cons] at hk; omega
      subst hkeq
      rw [List.take_of_length_le (by simp)]
      simp

/-- C6: the messages included in the history block form exactly a suffix of the
history, re-assembled in chronological order — `includedCount` many, walking from most
recent backward, a line `"<role>: <content>\n"` being included iff adding its estimated
tokens keeps the running total within the 1500-token history budget, stopping at the
first line that would exceed it; for a history whose lines all estimate to `T` tokens
exactly the last `min(len, ⌊1500/T⌋)` messages appear; and when no message fits the
history block is omitted entirely. -/
theorem history_suffix (h : List Message) :
    includedCount h ≤ h.length ∧
    buildHistoryText h = linesJoin (h.drop (h.length - includedCount h)) ∧
    tokSum (h.drop (h.length - includedCount h)) ≤ MAX_HISTORY_TOKENS ∧
    (includedCount h < h.length →
      MAX_HISTORY_TOKENS < tokSum (h.drop (h.length - (includedCount h + 1)))) ∧
    (includedCount h = 0 → history_section h = "") ∧
    (∀ T, (∀ m ∈ h, estimate_token_count (msgLine m) = T) →
      includedCount h = min h.length (MAX_HISTORY_TOKENS / T)) := by
  have hle0 : keepCount h.reverse 0 ≤ h.length := by
    simpa using keepCount_le h.reverse 0
  have hle : includedCount h ≤ h.length := by
    simp only [includedCount]; exact hle0
  have hjoin : buildHistoryText h = linesJoin (h.drop (h.length - includedCount h)) := by
    simp only [includedCount]
    rw [buildHistoryText, historyGo_join, str_append_empty,
      take_reverse_eq_drop h (keepCount h.reverse 0) hle0]
  refine ⟨hle, hjoin, ?_, ?_, ?_, ?_⟩
  · simp only [includedCount]
    rw [← take_reverse_eq_drop h (keepCount h.reverse 0) hle0, tokSum_reverse]
    have := keepCount_tokSum_le h.reverse 0 (by simp [MAX_HISTORY_TOKENS])
    simpa using this
  · intro hlt
    simp only [includedCount] at hlt ⊢
    have hle1 : keepCount h.reverse 0 + 1 ≤ h.length := hlt
    rw [← take_reverse_eq_drop h (keepCount h.reverse 0 + 1) hle1, tokSum_reverse]
    have := keepCount_overflow h.reverse 0 (by simpa using hlt)
    simpa using this
  · intro h0
    have hempty : buildHistoryText h = "" := by
      rw [hjoin, h0, Nat.sub_zero, List.drop_length]
      rfl
    simp [history_section, hempty]
  · intro T hT
    have := keepCount_uniform h.reverse 0 T (fun m hm => hT m (List.mem_reverse.mp hm))
    simpa [includedCount] using this

/-- Witness for C6: a concrete two-message history whose lines estimate to 3 tokens
each; both fit the 1500-token budget, so both are included, in order. -/
theorem history_suffix_witness :
    includedCount [Message.mk "user" "aaa", Message.mk "user" "bbb"] =
      min 2 (MAX_HISTORY_TOKENS / 3) ∧
    buildHistoryText [Message.mk "user" "aaa", Message.mk "user" "bbb"] =
      "user: aaa\nuser: bbb\n" := by
  have h := history_suffix [Message.mk "user" "aaa", Message.mk "user" "bbb"]
  refine ⟨h.2.2.2.2.2 3 (by decide), ?_⟩
  have hc : includedCount [Message.mk "user" "aaa", Message.mk "user" "bbb"] = 2 := by
    decide
  rw [h.2.1, hc]
  rfl

/-! ## Provider adapters (`src/core/ai_providers/`, `src/ai_providers/`) -/

/-- Python `len(s.split())`: number of maximal whitespace-separated words. -/
def pyWordCount (s : String) : Nat :=
  ((s.split fun c => c.isWhitespace).filter (fun w => w ≠ "")).length

/-- The `usage` object of a normalized `AIResponse`. A backend total that the adapter
does not put into the response dict is `none`. -/
structure Usage where
  inputTokens : Nat
  outputTokens : Nat
  totalTokens : Option Nat
  deriving DecidableEq

/-- `AnthropicProvider.generate_response` usage normalization
(src/core/ai_providers/anthropic_provider.py lines 46-55): the returned dict carries
only `inputTokens` and `outputTokens` — no `totalTokens` key. -/
def anthropic_generate_usage (input_tokens output_tokens : Nat) : Usage :=
  { inputTokens := input_tokens, outputTokens := output_tokens, totalTokens := none }

/-- `OpenAIProvider.generate_response` usage normalization
(src/core/ai_providers/openai_provider.py lines 46-57 and
src/ai_providers/openai_provider.py lines 55-66): the backend `total_tokens` is
passed through. -/
def openai_generate_usage (prompt_tokens completion_tokens total_tokens : Nat) : Usage :=
  { inputTokens := prompt_tokens, outputTokens := completion_tokens,
    totalTokens := some total_tokens }

/-- `DummyProvider.generate_response` usage
(src/core/ai_providers/dummy_provider.py lines 40-54): mock token counts are word
counts, and `totalTokens` is computed as their sum. `response_content` is the
randomly chosen dummy response. -/
def dummy_generate_usage (messages : List Message) (response_content : String) : Usage :=
  let input_tokens := (messages.map (fun m => pyWordCount m.content)).sum
  let output_tokens := pyWordCount response_content
  { inputTokens := input_tokens, outputTokens := output_tokens,
    totalTokens := some (input_tokens + output_tokens) }

/-- C1 counterexample: at backend usage `input_tokens=50, output_tokens=30` (the
spec scenario of a backend supplying no combined total) the Anthropic adapter
returns a usage object with no `totalTokens` at all — not `some 80`. -/
theorem usage_total_counterexample :
    anthropic_generate_usage 50 30 =
      { inputTokens := 50, outputTokens := 30, totalTokens := none } ∧
    (anthropic_generate_usage 50 30).totalTokens ≠
      some ((anthropic_generate_usage 50 30).inputTokens +
        (anthropic_generate_usage 50 30).outputTokens) := by
  exact ⟨rfl, by decide⟩

/-- C1 amended: the Dummy adapter computes `totalTokens = inputTokens + outputTokens`,
the OpenAI adapters pass the backend total through unchanged, but the Anthropic adapter
omits `totalTokens` from its usage object entirely. -/
theorem usage_total_amended :
    (∀ (messages : List Message) (response_content : String),
      (dummy_generate_usage messages response_content).totalTokens =
        some ((dummy_generate_usage messages response_content).inputTokens +
          (dummy_generate_usage messages response_content).outputTokens)) ∧
    (∀ p c t, (openai_generate_usage p c t).totalTokens = some t) ∧
    (∀ i o, (anthropic_generate_usage i o).totalTokens = none) :=
  ⟨fun _ _ => rfl, fun _ _ _ => rfl, fun _ _ => rfl⟩

/-- The token-limit value `src/ai_providers/openai_provider.py` (lines 29-48) passes to
the backend call: `max_tokens = options.get("maxTokens", 30000)` is immediately
overwritten by the constant re-assignment `max_tokens = 30000`. -/
def openai_llms_request_max_tokens (options : List (String × JVal)) : JVal :=
  let max_tokens := pyDictGetD options "maxTokens" (.int 30000)
  let max_tokens := JVal.int 30000
  max_tokens

/-- The request parameter name used for the token limit in
`src/ai_providers/openai_provider.py`: GPT-5 model families use
`max_completion_tokens`, the rest `max_tokens`. -/
def openai_llms_token_param (model : String) : String :=
  if model.startsWith "gpt-5" then "max_completion_tokens" else "max_tokens"

/-- The token-limit value `src/core/ai_providers/openai_provider.py` (lines 31-39)
passes to the backend call: `options.get("maxTokens", 1000)`. -/
def openai_core_request_max_tokens (options : List (String × JVal)) : JVal :=
  pyDictGetD options "maxTokens" (.int 1000)

/-- The token-limit value `src/core/ai_providers/anthropic_provider.py` (lines 31-44)
passes to the backend call: `options.get("maxTokens", 1000)`. -/
def anthropic_request_max_tokens (options : List (String × JVal)) : JVal :=
  pyDictGetD options "maxTokens" (.int 1000)

/-- C3: with `options = {"maxTokens": 2000}` the `src/ai_providers` OpenAI adapter
passes 30000 — not the caller-supplied 2000 — as the token limit (and does so for
every options dict), while the two `src/core` adapters pass the caller value through. -/
theorem max_tokens_override_bug :
    openai_llms_request_max_tokens [("maxTokens", .int 2000)] = .int 30000 ∧
    openai_llms_request_max_tokens [] = .int 30000 ∧
    openai_core_request_max_tokens [("maxTokens", .int 2000)] = .int 2000 ∧
    anthropic_request_max_tokens [("maxTokens", .int 2000)] = .int 2000 :=
  ⟨rfl, rfl, rfl, rfl⟩

/-! ## ProviderRegistry (`src/llms/ai_providers/factory.py`, `AIProviderFactory`) -/

/-- The registered adapter kinds. -/
inductive Provider where
  | claude
  | openai
  | dummy
  deriving DecidableEq

/-- `name = provider_name or settings.AI_PROVIDER` (Python truthiness: `None` and
`""` fall back to the configured default). -/
def resolveName (provider_name : Option String) (ai_provider_setting : String) : String :=
  match provider_name with
  | some s => if s ≠ "" then s else ai_provider_setting
  | none => ai_provider_setting

/-- Python `repr` of `list(dict.keys())`, e.g. `['claude', 'openai']`. -/
def pyListReprStr (names : List String) : String :=
  "[" ++ String.intercalate ", " (names.map pyReprStr) ++ "]"

/-- The `ValueError` message of `AIProviderFactory.get_provider`
(src/llms/ai_providers/factory.py lines 43-47). -/
def unavailable_message (name : String) (available : List String) : String :=
  "AI provider \x27" ++ name ++
    "\x27 is not available. Check your API keys. Available providers: " ++
    pyListReprStr available

/-- `AIProviderFactory.get_provider` (src/llms/ai_providers/factory.py lines 39-49):
resolve the name (falling back to `settings.AI_PROVIDER`), return the registered
adapter or raise `ValueError` with the "not available" message. -/
def get_provider (providers : List (String × Provider)) (ai_provider_setting : String)
    (provider_name : Option String) : Except String Provider :=
  let name := resolveName provider_name ai_provider_setting
  match List.lookup name providers with
  | some p => .ok p
  | none => .error (unavailable_message name (providers.map Prod.fst))

/-- `needle` occurs as a substring of `hay`. -/
def strContains (hay needle : String) : Prop := ∃ p q, hay = p ++ needle ++ q

/-- C5: resolving a provider by a name that is not registered — including resolving
with the name absent (or empty) when the configured default is not registered —
always fails with the `ValueError` message, which contains both the literal substring
`"not available"` and the requested (resolved) provider name; it never returns an
adapter. -/
theorem provider_unavailable (providers : List (String × Provider))
    (ai_provider_setting : String) (provider_name : Option String)
    (h : List.lookup (resolveName provider_name ai_provider_setting) providers = none) :
    get_provider providers ai_provider_setting provider_name =
      .error (unavailable_message (resolveName provider_name ai_provider_setting)
        (providers.map Prod.fst)) ∧
    strContains (unavailable_message (resolveName provider_name ai_provider_setting)
      (providers.map Prod.fst)) "not available" ∧
    strContains (unavailable_message (resolveName provider_name ai_provider_setting)
      (providers.map Prod.fst)) (resolveName provider_name ai_provider_setting) ∧
    (∀ s, provider_name = some s → s ≠ "" →
      resolveName provider_name ai_provider_setting = s) := by
  set name := resolveName provider_name ai_provider_setting with hname
  have hmsg : get_provider providers ai_provider_setting provider_name =
      .error (unavailable_message name (providers.map Prod.fst)) := by
    simp only [get_provider, ← hname, h]
  have hsplit : ("\x27 is not available. Check your API keys. Available providers: " :
      String) =
      "\x27 is " ++ "not available" ++ ". Check your API keys. Available providers: " := by
    decide
  refine ⟨hmsg, ?_, ?_, ?_⟩
  · refine ⟨"AI provider \x27" ++ name ++ "\x27 is ",
      ". Check your API keys. Available providers: " ++
        pyListReprStr (providers.map Prod.fst), ?_⟩
    rw [unavailable_message, hsplit]
    simp only [str_append_assoc]
  · refine ⟨"AI provider \x27",
      "\x27 is not available. Check your API keys. Available providers: " ++
        pyListReprStr (providers.map Prod.fst), ?_⟩
    rw [unavailable_message]
    simp only [str_append_assoc]
  · intro s hs hne
    rw [hname, hs, resolveName, if_pos hne]

/-- Witness for C5: resolving `"unknown-id"` against a registry holding only the dummy
provider fails with the message containing both `"not available"` and `"unknown-id"`. -/
theorem provider_unavailable_witness :
    get_provider [("dummy", Provider.dummy)] "claude" (some "unknown-id") =
      .error (unavailable_message "unknown-id" ["dummy"]) ∧
    strContains (unavailable_message "unknown-id" ["dummy"]) "not available" ∧
    strContains (unavailable_message "unknown-id" ["dummy"]) "unknown-id" := by
  have hr : resolveName (some "unknown-id") "claude" = "unknown-id" := rfl
  have h := provider_unavailable [("dummy", Provider.dummy)] "claude" (some "unknown-id")
    (by rw [hr]; rfl)
  rw [hr] at h
  exact ⟨h.1, h.2.1, h.2.2.1⟩

/-! ## ContextAssembler (`ChatService.build_context_prompt`, src/chat/services.py
lines 91-216)

`json.dumps(..., indent=2)` and Python `str()`/truthiness are modelled below;
`FileProcessor.generate_context_prompt` is the external file-summarization
collaborator of spec section 4.3 step 5 and is passed in as a function. -/

/-- Lowercase hex digit. -/
def hexDigit (n : Nat) : Char :=
  if n < 10 then Char.ofNat (48 + n) else Char.ofNat (87 + n)

/-- Four lowercase hex digits. -/
def hex4 (n : Nat) : String :=
  String.mk [hexDigit (n / 4096 % 16), hexDigit (n / 256 % 16),
    hexDigit (n / 16 % 16), hexDigit (n % 16)]

/-- `json.dumps` escaping of one character (default `ensure_ascii=True`). -/
def jsonEscapeChar (c : Char) : String :=
  if c = '"' then "\\\""
  else if c = '\\' then "\\\\"
  else if c = '\n' then "\\n"
  else if c = '\r' then "\\r"
  else if c = '\t' then "\\t"
  else if c.toNat < 32 then "\\u" ++ hex4 c.toNat
  else if c.toNat < 127 then String.singleton c
  else if c.toNat < 65536 then "\\u" ++ hex4 c.toNat
  else
    "\\u" ++ hex4 (55296 + (c.toNat - 65536) / 1024) ++
      "\\u" ++ hex4 (56320 + (c.toNat - 65536) % 1024)

/-- `json.dumps` rendering of a string. -/
def jsonQuote (s : String) : String :=
  "\"" ++ String.join (s.data.map jsonEscapeChar) ++ "\""

/-- `indent=2` indentation at nesting `level`. -/
def indentStr (level : Nat) : String := String.mk (List.replicate (2 * level) ' ')

mutual

/-- `json.dumps(v, indent=2)` at nesting `level`. -/
def dumpsVal (level : Nat) : JVal → String
  | .null => "null"
  | .bool true => "true"
  | .bool false => "false"
  | .int n => toString n
  | .str s => jsonQuote s
  | .arr [] => "[]"
  | .arr (x :: xs) =>
    "[\n" ++ dumpsItems (level + 1) (x :: xs) ++ "\n" ++ indentStr level ++ "]"
  | .obj [] => "\x7b\x7d"
  | .obj (f :: fs) =>
    "\x7b\n" ++ dumpsFields (level + 1) (f :: fs) ++ "\n" ++ indentStr level ++ "\x7d"

def dumpsItems (level : Nat) : List JVal → String
  | [] => ""
  | [x] => indentStr level ++ dumpsVal level x
  | x :: y :: xs =>
    indentStr level ++ dumpsVal level x ++ ",\n" ++ dumpsItems level (y :: xs)

def dumpsFields (level : Nat) : List (String × JVal) → String
  | [] => ""
  | [(k, v)] => indentStr level ++ jsonQuote k ++ ": " ++ dumpsVal level v
  | (k, v) :: f :: fs =>
    indentStr level ++ jsonQuote k ++ ": " ++ dumpsVal level v ++ ",\n" ++
      dumpsFields level (f :: fs)

end

/-- `json.dumps(v, indent=2)`. -/
def pyJsonDumps (v : JVal) : String := dumpsVal 0 v

example : pyJsonDumps (.obj [("a", .int 1)]) = "\x7b\n  \"a\": 1\n\x7d" := by decide

/-- Python `a or b` on values (truthiness of the left operand). -/
def pyOrJ (a b : JVal) : JVal := if pyTruthy a then a else b

/-- Attribute access (`.get` / `.items()`) on a value that must be a dict:
`AttributeError` otherwise. -/
def asDictFields : JVal → Except PyErr (List (String × JVal))
  | .obj fields => .ok fields
  | _ => .error .attributeError

/-- The default opening line of `base_context`. -/
def defaultOpeningLine : String :=
  "You are a helpful assistant embedded in a website to answer questions about the current page and help users."

/-- The rest of `base_context` after the opening line: the Page Information block
(field-by-field `pageContext`-then-`pageData` fallback, `"Not provided"` for missing
fields) and the optional Special Instructions line. -/
def pageInfoBlock (page_context page_data : List (String × JVal))
    (custom_instructions : JVal) : String :=
  "\n\nPage Information:\n- URL: " ++
    pyStrVal (pyOrJ (pyDictGetD page_context "url" .null)
      (pyOrJ (pyDictGetD page_data "url" .null) (.str "Not provided"))) ++
  "\n- Title: " ++
    pyStrVal (pyOrJ (pyDictGetD page_context "title" .null)
      (pyOrJ (pyDictGetD page_data "title" .null) (.str "Not provided"))) ++
  "\n- Content Summary: " ++
    pyStrVal (pyOrJ (pyDictGetD page_context "content" .null)
      (pyOrJ (pyDictGetD page_context "description" .null)
        (pyOrJ (pyDictGetD page_data "pageContent" .null) (.str "Not provided")))) ++
  "\n- Hostname: " ++
    pyStrVal (pyOrJ (pyDictGetD page_data "hostname" .null) (.str "Not provided")) ++
  "\n- Page Language: " ++
    pyStrVal (pyOrJ (pyDictGetD page_data "language" .null) (.str "Not provided")) ++
  "\n\n" ++
  (if pyTruthy custom_instructions then
    "Special Instructions: " ++ pyStrVal custom_instructions
  else "")

/-- The `json_data_section` of `build_context_prompt` (src/chat/services.py lines
120-157): runs the tabular normalization, rendering CSV sections plus the truncated
placeholder JSON, or the raw truncated JSON when no arrays were converted. -/
def jsonDataSection (json_data : JVal) : Except PyErr String :=
  if pyTruthy json_data then
    match asDictFields json_data with
    | .error e => .error e
    | .ok fields =>
      match process_json_data_to_csv fields with
      | .error e => .error e
      | .ok (processed_data, csv_data) =>
        if !csv_data.isEmpty then
          let csv_sections := strConcat (csv_data.map (fun s =>
            "\n## " ++ s.2.name ++ " (" ++ toString s.2.originalLength ++
              " records):\n" ++ s.2.csv ++ "\n"))
          let truncated_json_string :=
            truncate_text (pyJsonDumps (.obj processed_data)) MAX_JSON_DATA_TOKENS
          .ok ("Available Data" ++
            (if strInB "..." truncated_json_string then " (truncated)" else "") ++
            ":\n\n=== CSV DATA ===\n" ++ csv_sections ++
            "\n\n=== ADDITIONAL CONTEXT ===\n" ++ truncated_json_string ++
            "\n\nYou have access to structured data in CSV format above, plus additional context. You can analyze this data, compare records, calculate totals, identify trends, and provide insights based on the metrics.")
        else
          let truncated_json_string :=
            truncate_text (pyJsonDumps json_data) MAX_JSON_DATA_TOKENS
          .ok ("Available JSON Data" ++
            (if strInB "..." truncated_json_string then " (truncated)" else "") ++
            ":\n" ++ truncated_json_string ++
            "\n\nYou have access to structured data. You can analyze this data and answer questions about it.")
  else .ok ""

/-- The `file_data_section`: delegated verbatim to the external file-summarization
collaborator when `file_data` is truthy. -/
def fileSection (file_formatter : JVal → String) (file_data : Option JVal) : String :=
  match file_data with
  | some fd => if pyTruthy fd then file_formatter fd else ""
  | none => ""

/-- Truthiness of the `file_data` argument. -/
def fileTruthy (file_data : Option JVal) : Bool :=
  match file_data with
  | some fd => pyTruthy fd
  | none => false

/-- The final assembly (`context_prompt` accumulation) of `build_context_prompt`
(src/chat/services.py lines 181-216), starting from `opening ++ page_info`
(`base_context`) and appending each non-empty section, the current question, the
truncation note and the closing instructions. -/
def assemble_prompt (opening page_info json_data_section file_data_section
    hist_section truncated_user_message user_message : String)
    (json_truthy file_truthy : Bool) : String :=
  let context_prompt := opening ++ page_info
  let context_prompt := if json_data_section ≠ "" then
      context_prompt ++ "\n\n" ++ json_data_section
    else context_prompt
  let context_prompt := if file_data_section ≠ "" then
      context_prompt ++ "\n\n" ++ file_data_section
    else context_prompt
  let context_prompt := if hist_section ≠ "" then
      context_prompt ++ "\n\n" ++ hist_section
    else context_prompt
  let context_prompt := context_prompt ++ "\nCurrent user question: " ++
    truncated_user_message
  let context_prompt := if truncated_user_message ≠ user_message then
      context_prompt ++ "\n\n[Note: User message was truncated due to length. Original length: " ++
        toString user_message.length ++ " characters]"
    else context_prompt
  context_prompt ++ "\n\nPlease provide a helpful, accurate response based on the page context" ++
    (if json_truthy then ", the JSON data provided" else "") ++
    ", conversation history" ++
    (if file_truthy then ", and the uploaded file data" else "") ++
    ".\n\n" ++
    (if json_truthy then
      "When discussing the JSON data, be specific about metrics, campaigns, and performance indicators. You can compare campaigns, calculate totals, identify trends, and provide insights based on the data."
    else "") ++
    " Keep responses concise but informative."

/-- `build_context_prompt` with the opening line as a parameter: page context and
page data are read (raising `AttributeError` for non-dict values, as the `.get`
attribute accesses do), the sections are built, and the prompt is assembled. -/
def build_context_prompt_core (opening : String) (file_formatter : JVal → String)
    (user_message : String) (session_config : List (String × JVal))
    (conversation_history : List Message) (file_data : Option JVal) :
    Except PyErr String :=
  match asDictFields (pyDictGetD session_config "pageContext" (.obj [])) with
  | .error e => .error e
  | .ok page_context =>
    match asDictFields (pyDictGetD session_config "pageData" (.obj [])) with
    | .error e => .error e
    | .ok page_data =>
      match jsonDataSection (pyDictGetD session_config "jsonData" (.obj [])) with
      | .error e => .error e
      | .ok json_data_section =>
        .ok (assemble_prompt opening
          (pageInfoBlock page_context page_data
            (pyDictGetD session_config "customInstructions" (.str "")))
          json_data_section
          (fileSection file_formatter file_data)
          (history_section conversation_history)
          (truncate_text user_message MAX_USER_MESSAGE_TOKENS true)
          user_message
          (pyTruthy (pyDictGetD session_config "jsonData" (.obj [])))
          (fileTruthy file_data))

/-- `ChatService.build_context_prompt` as in src/chat/services.py (no system-prompt
parameter; the default opening line is always used). -/
def build_context_prompt (file_formatter : JVal → String) (user_message : String)
    (session_config : List (String × JVal)) (conversation_history : List Message)
    (file_data : Option JVal) : Except PyErr String :=
  build_context_prompt_core defaultOpeningLine file_formatter user_message
    session_config conversation_history file_data

/-- Modelled from the spec: the opening instruction block of
`ChatService.build_context_prompt` in `chat/services/chat_service.py`, which is the
module the `chat.services` package actually exports but is missing from the sources
(only its tests and callers are present). Spec section 4.3 step 1: a non-empty
`systemPrompt` is used verbatim as the opening line; `None` and the empty string fall
back to the built-in default (falsy check). -/
def opening_block (system_prompt : Option String) : String :=
  match system_prompt with
  | some s => if s ≠ "" then s else defaultOpeningLine
  | none => defaultOpeningLine

/-- Modelled from the spec: `ChatService.build_context_prompt` with the
`system_prompt` parameter (`chat/services/chat_service.py`, absent from the sources);
identical to the `src/chat/services.py` assembly except that the opening line is
chosen by `opening_block`. -/
def build_context_prompt_sp (file_formatter : JVal → String) (user_message : String)
    (session_config : List (String × JVal)) (conversation_history : List Message)
    (file_data : Option JVal) (system_prompt : Option String) : Except PyErr String :=
  build_context_prompt_core (opening_block system_prompt) file_formatter user_message
    session_config conversation_history file_data

theorem strPre_append_right {a s : String} (t : String) (h : strPre a s) :
    strPre a (s ++ t) := by
  obtain ⟨r, hr⟩ := h
  exact ⟨r ++ t, by rw [hr, str_append_assoc]⟩

/-- Every assembled prompt starts with its opening block. -/
theorem assemble_prompt_opens (opening page_info json_s file_s hist_s tum um : String)
    (jd fd : Bool) :
    strPre opening (assemble_prompt opening page_info json_s file_s hist_s tum um jd fd) := by
  simp only [assemble_prompt]
  repeat' split
  all_goals (simp only [str_append_assoc]; exact strPre_of_append _ _)

theorem build_core_ok_opens {opening : String} {ff : JVal → String} {um : String}
    {sc : List (String × JVal)} {ch : List Message} {fd : Option JVal} {p : String}
    (hp : build_context_prompt_core opening ff um sc ch fd = .ok p) :
    strPre opening p := by
  unfold build_context_prompt_core at hp
  cases h1 : asDictFields (pyDictGetD sc "pageContext" (.obj [])) with
  | error e => rw [h1] at hp; exact absurd hp (by simp)
  | ok pc =>
    rw [h1] at hp
    cases h2 : asDictFields (pyDictGetD sc "pageData" (.obj [])) with
    | error e => rw [h2] at hp; exact absurd hp (by simp)
    | ok pd =>
      rw [h2] at hp
      cases h3 : jsonDataSection (pyDictGetD sc "jsonData" (.obj [])) with
      | error e => rw [h3] at hp; exact absurd hp (by simp)
      | ok js =>
        rw [h3] at hp
        have hpe : p = assemble_prompt opening
            (pageInfoBlock pc pd (pyDictGetD sc "customInstructions" (.str "")))
            js (fileSection ff fd) (history_section ch)
            (truncate_text um MAX_USER_MESSAGE_TOKENS true) um
            (pyTruthy (pyDictGetD sc "jsonData" (.obj []))) (fileTruthy fd) := by
          cases hp; rfl
        rw [hpe]
        exact assemble_prompt_opens _ _ _ _ _ _ _ _ _

/-- C2: for every input, when `system_prompt` is a non-empty string the returned
prompt opens with that string verbatim — and orthogonally can only open with the
default text if the supplied prompt itself overlaps it as a prefix — while for
`system_prompt = None` or `""` the returned prompt opens with the built-in default,
whose text begins `"You are a helpful assistant"`. -/
theorem system_prompt_opening (file_formatter : JVal → String) (user_message : String)
    (session_config : List (String × JVal)) (conversation_history : List Message)
    (file_data : Option JVal) (system_prompt : Option String) (p : String)
    (hp : build_context_prompt_sp file_formatter user_message session_config
      conversation_history file_data system_prompt = .ok p) :
    (∀ s, system_prompt = some s → s ≠ "" →
      strPre s p ∧
      (strPre defaultOpeningLine p →
        strPre defaultOpeningLine s ∨ strPre s defaultOpeningLine)) ∧
    ((system_prompt = none ∨ system_prompt = some "") →
      strPre defaultOpeningLine p ∧ strPre "You are a helpful assistant" p) := by
  have hopen : strPre (opening_block system_prompt) p := build_core_ok_opens hp
  constructor
  · intro s hs hne
    subst hs
    have hob : opening_block (some s) = s := by
      simp [opening_block, hne]
    rw [hob] at hopen
    refine ⟨hopen, fun hd => strPre_total hd hopen⟩
  · intro hcase
    have hob : opening_block system_prompt = defaultOpeningLine := by
      rcases hcase with h | h <;> subst h <;> simp [opening_block]
    rw [hob] at hopen
    refine ⟨hopen, ?_⟩
    obtain ⟨r, hr⟩ := hopen
    have hd : defaultOpeningLine =
        "You are a helpful assistant" ++
          " embedded in a website to answer questions about the current page and help users." := by
      decide
    rw [hr, hd, str_append_assoc]
    exact strPre_of_append _ _

/-- Extract the `.ok` payload of a built prompt. -/
def pickOk (e : Except PyErr String) : String :=
  match e with
  | .ok s => s
  | .error _ => ""

/-- Witness for C2: a custom system prompt opens the concrete assembled prompt, and
with `system_prompt = None` the default opening line (beginning
`"You are a helpful assistant"`) does. -/
theorem system_prompt_opening_witness :
    strPre "You are a real estate expert."
      (pickOk (build_context_prompt_sp (fun _ => "") "Tell me about this property" []
        [] none (some "You are a real estate expert."))) ∧
    strPre "You are a helpful assistant"
      (pickOk (build_context_prompt_sp (fun _ => "") "Hello" [] [] none none)) := by
  constructor
  · have h := system_prompt_opening (fun _ => "") "Tell me about this property" [] []
      none (some "You are a real estate expert.")
      (pickOk (build_context_prompt_sp (fun _ => "") "Tell me about this property" []
        [] none (some "You are a real estate expert."))) rfl
    exact (h.1 "You are a real estate expert." rfl (by decide)).1
  · have h := system_prompt_opening (fun _ => "") "Hello" [] [] none none
      (pickOk (build_context_prompt_sp (fun _ => "") "Hello" [] [] none none)) rfl
    exact (h.2 (Or.inl rfl)).2

/-! ## Heap model of `process_json_data_to_csv` (C7: the input is never mutated)

The frame/no-mutation property of `process_json_data_to_csv` is about Python object
identity, so it is stated against an explicit heap: dicts are mutable heap cells
addressed by index, every other value is immediate, `json.loads(json.dumps(...))`
allocates a fully fresh copy, and `traverse` writes (`obj[key] = ...`) only through
addresses reachable from the clone. Recursions carry fuel (`none` = out of fuel;
actual runs are finite since JSON-serializable data is acyclic — `json.dumps`
rejects circular input). -/

/-- A heap value: dicts live in the heap behind `ref`; everything else is immediate. -/
inductive HVal where
  | null
  | bool (b : Bool)
  | int (n : Int)
  | str (s : String)
  | arr (elems : List HVal)
  | ref (a : Nat)

/-- The dict heap: address = index. -/
abbrev Heap := List (List (String × HVal))

/-- Dereference a dict address (well-formed runs never dangle). -/
def heapGet (h : Heap) (a : Nat) : List (String × HVal) := h[a]?.getD []

/-- Python `d[k] = v`: replace in place, or append a new key. -/
def dictSet (d : List (String × HVal)) (k : String) (v : HVal) : List (String × HVal) :=
  match d with
  | [] => [(k, v)]
  | (k', v') :: rest => if k' = k then (k, v) :: rest else (k', v') :: dictSet rest k v

mutual

/-- `json.loads(json.dumps(value))`: structure-preserving copy with fresh dict
addresses only. -/
def copyVal : Nat → Heap → HVal → Option (Heap × HVal)
  | 0, _, _ => none
  | fuel + 1, h, v =>
    match v with
    | .ref a =>
      match copyDict fuel h (heapGet h a) with
      | none => none
      | some (h1, d1) => some (h1 ++ [d1], .ref h1.length)
    | .arr xs =>
      match copyList fuel h xs with
      | none => none
      | some (h1, xs1) => some (h1, .arr xs1)
    | x => some (h, x)

def copyList : Nat → Heap → List HVal → Option (Heap × List HVal)
  | 0, _, _ => none
  | _ + 1, h, [] => some (h, [])
  | fuel + 1, h, x :: xs =>
    match copyVal fuel h x with
    | none => none
    | some (h1, x1) =>
      match copyList fuel h1 xs with
      | none => none
      | some (h2, xs1) => some (h2, x1 :: xs1)

def copyDict : Nat → Heap → List (String × HVal) → Option (Heap × List (String × HVal))
  | 0, _, _ => none
  | _ + 1, h, [] => some (h, [])
  | fuel + 1, h, (k, v) :: rest =>
    match copyVal fuel h v with
    | none => none
    | some (h1, v1) =>
      match copyDict fuel h1 rest with
      | none => none
      | some (h2, rest1) => some (h2, (k, v1) :: rest1)

end

mutual

/-- Heap-level model of Python `repr` (used by `str()` on container cell values). -/
def hReprVal : Nat → Heap → HVal → Option String
  | 0, _, _ => none
  | fuel + 1, h, v =>
    match v with
    | .null => some "None"
    | .bool true => some "True"
    | .bool false => some "False"
    | .int n => some (toString n)
    | .str s => some (pyReprStr s)
    | .arr xs =>
      match hReprList fuel h xs with
      | none => none
      | some r => some ("[" ++ r ++ "]")
    | .ref a =>
      match hReprFields fuel h (heapGet h a) with
      | none => none
      | some r => some ("\x7b" ++ r ++ "\x7d")

def hReprList : Nat → Heap → List HVal → Option String
  | 0, _, _ => none
  | _ + 1, _, [] => some ""
  | fuel + 1, h, [x] => hReprVal fuel h x
  | fuel + 1, h, x :: y :: xs =>
    match hReprVal fuel h x, hReprList fuel h (y :: xs) with
    | some a, some b => some (a ++ ", " ++ b)
    | _, _ => none

def hReprFields : Nat → Heap → List (String × HVal) → Option String
  | 0, _, _ => none
  | _ + 1, _, [] => some ""
  | fuel + 1, h, [(k, v)] =>
    match hReprVal fuel h v with
    | none => none
    | some r => some (pyReprStr k ++ ": " ++ r)
  | fuel + 1, h, (k, v) :: f :: fs =>
    match hReprVal fuel h v, hReprFields fuel h (f :: fs) with
    | some r, some rs => some (pyReprStr k ++ ": " ++ r ++ ", " ++ rs)
    | _, _ => none

end

/-- Heap-level model of Python `str()`. -/
def hStrVal (fuel : Nat) (h : Heap) : HVal → Option String
  | .str s => some s
  | v => hReprVal fuel h v

/-- Heap-level CSV cell (`convert_array_to_csv` inner loop). -/
def hCell (fuel : Nat) (h : Heap) (fields : List (String × HVal)) (col : String) :
    Option String :=
  match List.lookup col fields with
  | some (.str s) => some (if strInB "," s then "\"" ++ s ++ "\"" else s)
  | some .null => some "0"
  | some v => hStrVal fuel h v
  | none => some "0"

/-- All cells of one row. -/
def hCells (fuel : Nat) (h : Heap) (fields : List (String × HVal)) :
    List String → Option (List String)
  | [] => some []
  | c :: cs =>
    match hCell fuel h fields c, hCells fuel h fields cs with
    | some x, some xs => some (x :: xs)
    | _, _ => none

/-- Heap-level data rows of `convert_array_to_csv`. -/
def hConvRows (fuel : Nat) (h : Heap) (cols : List String) :
    List HVal → Option (Except PyErr String)
  | [] => some (.ok "")
  | item :: rest =>
    match item with
    | .ref a =>
      match hCells fuel h (heapGet h a) cols with
      | none => none
      | some cells =>
        match hConvRows fuel h cols rest with
        | none => none
        | some (.error e) => some (.error e)
        | some (.ok restS) =>
          some (.ok (String.intercalate "," cells ++ "\n" ++ restS))
    | _ => some (.error .attributeError)

/-- Heap-level `convert_array_to_csv` (read-only: it returns no heap). -/
def hConvert (fuel : Nat) (h : Heap) (data_array : List HVal) :
    Option (Except PyErr (Option String)) :=
  match data_array with
  | [] => some (.ok none)
  | first :: _ =>
    match first with
    | .ref a0 =>
      match hConvRows fuel h ((heapGet h a0).map Prod.fst) data_array with
      | none => none
      | some (.error e) => some (.error e)
      | some (.ok body) =>
        some (.ok (some (String.intercalate "," ((heapGet h a0).map Prod.fst) ++
          "\n" ++ body)))
    | _ => some (.ok none)

mutual

/-- Heap-level `traverse` over the snapshot `fields` of the dict at address `a`:
converted arrays overwrite `obj[key]` in the heap (`h.set`); nested dict refs are
traversed recursively. Errors carry the heap state reached so far. -/
def travFields : Nat → Heap → Nat → String → List (String × HVal) →
    Option (Heap × Except PyErr (List (String × CsvSection)))
  | 0, _, _, _, _ => none
  | _ + 1, h, _, _, [] => some (h, .ok [])
  | fuel + 1, h, a, path, (key, value) :: rest =>
    let current_path := if path = "" then key else path ++ "." ++ key
    match value with
    | .arr xs =>
      match hConvert fuel h xs with
      | none => none
      | some (.error e) => some (h, .error e)
      | some (.ok csvOpt) =>
        match csvOpt with
        | some s =>
          if s ≠ "" then
            match travFields fuel
              (h.set a (dictSet (heapGet h a) key
                (.str ("[See CSV data for " ++ key ++ " below]")))) a path rest with
            | none => none
            | some (h2, .error e) => some (h2, .error e)
            | some (h2, .ok secs) =>
              some (h2, .ok ((current_path, ⟨s, xs.length, key⟩) :: secs))
          else travFields fuel h a path rest
        | none => travFields fuel h a path rest
    | .ref b =>
      match travDict fuel h b current_path with
      | none => none
      | some (h1, .error e) => some (h1, .error e)
      | some (h1, .ok secs1) =>
        match travFields fuel h1 a path rest with
        | none => none
        | some (h2, .error e) => some (h2, .error e)
        | some (h2, .ok secs2) => some (h2, .ok (secs1 ++ secs2))
    | _ => travFields fuel h a path rest

/-- Heap-level `traverse(obj, path)` on the dict at address `a`. -/
def travDict : Nat → Heap → Nat → String →
    Option (Heap × Except PyErr (List (String × CsvSection)))
  | 0, _, _, _ => none
  | fuel + 1, h, a, path => travFields fuel h a path (heapGet h a)

end

/-- Heap-level `process_json_data_to_csv`: deep-clone the input, then traverse the
clone (raising `AttributeError` when the clone is not a dict). Returns the final
heap together with the result. -/
def processHeap (fuel : Nat) (h : Heap) (data : HVal) :
    Option (Heap × Except PyErr (HVal × List (String × CsvSection))) :=
  match copyVal fuel h data with
  | none => none
  | some (h1, cloned) =>
    match cloned with
    | .ref r =>
      match travDict fuel h1 r "" with
      | none => none
      | some (h2, .error e) => some (h2, .error e)
      | some (h2, .ok csv_data) => some (h2, .ok (cloned, csv_data))
    | _ => some (h1, .error .attributeError)

mutual

/-- All dict refs in a value lie in the address range `[lo, hi)`. -/
def valRB (lo hi : Nat) : HVal → Bool
  | .ref a => decide (lo ≤ a) && decide (a < hi)
  | .arr xs => listRB lo hi xs
  | _ => true

def listRB (lo hi : Nat) : List HVal → Bool
  | [] => true
  | x :: xs => valRB lo hi x && listRB lo hi xs

end

/-- All dict refs in a dict's values lie in `[lo, hi)`. -/
def dictRB (lo hi : Nat) : List (String × HVal) → Bool
  | [] => true
  | (_, v) :: rest => valRB lo hi v && dictRB lo hi rest

mutual

theorem valRB_mono (v : HVal) {lo hi lo' hi' : Nat} (h1 : lo' ≤ lo) (h2 : hi ≤ hi')
    (hv : valRB lo hi v = true) : valRB lo' hi' v = true := by
  cases v with
  | ref a =>
    simp only [valRB, Bool.and_eq_true, decide_eq_true_eq] at hv ⊢
    omega
  | arr xs =>
    simp only [valRB] at hv ⊢
    exact listRB_mono xs h1 h2 hv
  | null => simp [valRB]
  | bool b => simp [valRB]
  | int n => simp [valRB]
  | str s => simp [valRB]

theorem listRB_mono (xs : List HVal) {lo hi lo' hi' : Nat} (h1 : lo' ≤ lo)
    (h2 : hi ≤ hi') (hv : listRB lo hi xs = true) : listRB lo' hi' xs = true := by
  cases xs with
  | nil => simp [listRB]
  | cons x rest =>
    simp only [listRB, Bool.and_eq_true] at hv ⊢
    exact ⟨valRB_mono x h1 h2 hv.1, listRB_mono rest h1 h2 hv.2⟩

end

theorem dictRB_mono (d : List (String × HVal)) {lo hi lo' hi' : Nat} (h1 : lo' ≤ lo)
    (h2 : hi ≤ hi') (hd : dictRB lo hi d = true) : dictRB lo' hi' d = true := by
  induction d with
  | nil => simp [dictRB]
  | cons kv rest ih =>
    obtain ⟨k, v⟩ := kv
    simp only [dictRB, Bool.and_eq_true] at hd ⊢
    exact ⟨valRB_mono v h1 h2 hd.1, ih hd.2⟩

theorem dictRB_dictSet (d : List (String × HVal)) (k : String) (v : HVal)
    {lo hi : Nat} (hd : dictRB lo hi d = true) (hv : valRB lo hi v = true) :
    dictRB lo hi (dictSet d k v) = true := by
  induction d with
  | nil => simp [dictSet, dictRB, hv]
  | cons kv rest ih =>
    obtain ⟨k', v'⟩ := kv
    simp only [dictRB, Bool.and_eq_true] at hd
    by_cases hk : k' = k
    · simp [dictSet, hk, dictRB, hv, hd.2]
    · simp [dictSet, hk, dictRB, hd.1, ih hd.2]

theorem heapGet_append_lt (h Δ : Heap) (a : Nat) (ha : a < h.length) :
    heapGet (h ++ Δ) a = heapGet h a := by
  simp [heapGet, List.getElem?_append_left ha]

theorem heapGet_concat_self (h : Heap) (d : List (String × HVal)) :
    heapGet (h ++ [d]) h.length = d := by
  simp [heapGet, List.getElem?_concat_length]

mutual

/-- The deep copy leaves the existing heap untouched, only appends, and everything
it returns refers only into the freshly allocated region, which is closed. -/
theorem copyVal_spec (fuel : Nat) (h : Heap) (v : HVal) (h' : Heap) (v' : HVal)
    (hc : copyVal fuel h v = some (h', v')) :
    (∀ a, a < h.length → h'[a]? = h[a]?) ∧ h.length ≤ h'.length ∧
    valRB h.length h'.length v' = true ∧
    (∀ a, h.length ≤ a → a < h'.length →
      dictRB h.length h'.length (heapGet h' a) = true) := by
  match fuel with
  | 0 => simp [copyVal] at hc
  | fuel + 1 =>
    cases v with
    | ref a =>
      simp only [copyVal] at hc
      cases hcd : copyDict fuel h (heapGet h a) with
      | none => simp [hcd] at hc
      | some p =>
        obtain ⟨h1, d1⟩ := p
        simp only [hcd, Option.some.injEq, Prod.mk.injEq] at hc
        obtain ⟨hh, hv⟩ := hc
        subst hh; subst hv
        obtain ⟨pres, hlen, drb, region⟩ := copyDict_spec fuel h (heapGet h a) h1 d1 hcd
        have hlen' : (h1 ++ [d1]).length = h1.length + 1 := by simp
        refine ⟨?_, ?_, ?_, ?_⟩
        · intro b hb
          rw [List.getElem?_append_left (by omega), pres b hb]
        · omega
        · simp only [valRB, Bool.and_eq_true, decide_eq_true_eq]
          omega
        · intro b hb1 hb2
          rw [hlen'] at hb2
          rcases Nat.lt_or_ge b h1.length with hlt | hge
          · rw [heapGet_append_lt _ _ _ hlt]
            exact dictRB_mono _ (Nat.le_refl _) (by omega) (region b hb1 hlt)
          · have hbeq : b = h1.length := by omega
            subst hbeq
            rw [heapGet_concat_self]
            exact dictRB_mono _ (Nat.le_refl _) (by omega) drb
    | arr xs =>
      simp only [copyVal] at hc
      cases hcl : copyList fuel h xs with
      | none => simp [hcl] at hc
      | some p =>
        obtain ⟨h1, xs1⟩ := p
        simp only [hcl, Option.some.injEq, Prod.mk.injEq] at hc
        obtain ⟨hh, hv⟩ := hc
        subst hh; subst hv
        obtain ⟨pres, hlen, lrb, region⟩ := copyList_spec fuel h xs h1 xs1 hcl
        exact ⟨pres, hlen, by simpa [valRB] using lrb, region⟩
    | null =>
      simp only [copyVal, Option.some.injEq, Prod.mk.injEq] at hc
      obtain ⟨hh, hv⟩ := hc
      subst hh; subst hv
      exact ⟨fun _ _ => rfl, Nat.le_refl _, by simp [valRB], fun a h1 h2 => by omega⟩
    | bool b =>
      simp only [copyVal, Option.some.injEq, Prod.mk.injEq] at hc
      obtain ⟨hh, hv⟩ := hc
      subst hh; subst hv
      exact ⟨fun _ _ => rfl, Nat.le_refl _, by simp [valRB], fun a h1 h2 => by omega⟩
    | int n =>
      simp only [copyVal, Option.some.injEq, Prod.mk.injEq] at hc
      obtain ⟨hh, hv⟩ := hc
      subst hh; subst hv
      exact ⟨fun _ _ => rfl, Nat.le_refl _, by simp [valRB], fun a h1 h2 => by omega⟩
    | str s =>
      simp only [copyVal, Option.some.injEq, Prod.mk.injEq] at hc
      obtain ⟨hh, hv⟩ := hc
      subst hh; subst hv
      exact ⟨fun _ _ => rfl, Nat.le_refl _, by simp [valRB], fun a h1 h2 => by omega⟩

theorem copyList_spec (fuel : Nat) (h : Heap) (xs : List HVal) (h' : Heap)
    (xs' : List HVal) (hc : copyList fuel h xs = some (h', xs')) :
    (∀ a, a < h.length → h'[a]? = h[a]?) ∧ h.length ≤ h'.length ∧
    listRB h.length h'.length xs' = true ∧
    (∀ a, h.length ≤ a → a < h'.length →
      dictRB h.length h'.length (heapGet h' a) = true) := by
  match fuel with
  | 0 => simp [copyList] at hc
  | fuel + 1 =>
    cases xs with
    | nil =>
      simp only [copyList, Option.some.injEq, Prod.mk.injEq] at hc
      obtain ⟨hh, hv⟩ := hc
      subst hh; subst hv
      exact ⟨fun _ _ => rfl, Nat.le_refl _, by simp [listRB], fun a h1 h2 => by omega⟩
    | cons x rest =>
      simp only [copyList] at hc
      cases hcv : copyVal fuel h x with
      | none => simp [hcv] at hc
      | some p =>
        obtain ⟨h1, x1⟩ := p
        simp only [hcv] at hc
        cases hcl : copyList fuel h1 rest with
        | none => simp [hcl] at hc
        | some q =>
          obtain ⟨h2, rest1⟩ := q
          simp only [hcl, Option.some.injEq, Prod.mk.injEq] at hc
          obtain ⟨hh, hv⟩ := hc
          subst hh; subst hv
          obtain ⟨pres1, len1, vrb, reg1⟩ := copyVal_spec fuel h x h1 x1 hcv
          obtain ⟨pres2, len2, lrb, reg2⟩ := copyList_spec fuel h1 rest h2 rest1 hcl
          refine ⟨?_, by omega, ?_, ?_⟩
          · intro b hb
            rw [pres2 b (by omega), pres1 b hb]
          · simp only [listRB, Bool.and_eq_true]
            exact ⟨valRB_mono x1 (Nat.le_refl _) len2 vrb,
              listRB_mono rest1 len1 (Nat.le_refl _) lrb⟩
          · intro b hb1 hb2
            rcases Nat.lt_or_ge b h1.length with hlt | hge
            · have : heapGet h2 b = heapGet h1 b := by
                simp [heapGet, pres2 b hlt]
              rw [this]
              exact dictRB_mono _ (Nat.le_refl _) len2 (reg1 b hb1 hlt)
            · exact dictRB_mono _ len1 (Nat.le_refl _) (reg2 b hge hb2)

theorem copyDict_spec (fuel : Nat) (h : Heap) (d : List (String × HVal)) (h' : Heap)
    (d' : List (String × HVal)) (hc : copyDict fuel h d = some (h', d')) :
    (∀ a, a < h.length → h'[a]? = h[a]?) ∧ h.length ≤ h'.length ∧
    dictRB h.length h'.length d' = true ∧
    (∀ a, h.length ≤ a → a < h'.length →
      dictRB h.length h'.length (heapGet h' a) = true) := by
  match fuel with
  | 0 => simp [copyDict] at hc
  | fuel + 1 =>
    cases d with
    | nil =>
      simp only [copyDict, Option.some.injEq, Prod.mk.injEq] at hc
      obtain ⟨hh, hv⟩ := hc
      subst hh; subst hv
      exact ⟨fun _ _ => rfl, Nat.le_refl _, by simp [dictRB], fun a h1 h2 => by omega⟩
    | cons kv rest =>
      obtain ⟨k, v⟩ := kv
      simp only [copyDict] at hc
      cases hcv : copyVal fuel h v with
      | none => simp [hcv] at hc
      | some p =>
        obtain ⟨h1, v1⟩ := p
        simp only [hcv] at hc
        cases hcd : copyDict fuel h1 rest with
        | none => simp [hcd] at hc
        | some q =>
          obtain ⟨h2, rest1⟩ := q
          simp only [hcd, Option.some.injEq, Prod.mk.injEq] at hc
          obtain ⟨hh, hv⟩ := hc
          subst hh; subst hv
          obtain ⟨pres1, len1, vrb, reg1⟩ := copyVal_spec fuel h v h1 v1 hcv
          obtain ⟨pres2, len2, drb, reg2⟩ := copyDict_spec fuel h1 rest h2 rest1 hcd
          refine ⟨?_, by omega, ?_, ?_⟩
          · intro b hb
            rw [pres2 b (by omega), pres1 b hb]
          · simp only [dictRB, Bool.and_eq_true]
            exact ⟨valRB_mono v1 (Nat.le_refl _) len2 vrb,
              dictRB_mono rest1 len1 (Nat.le_refl _) drb⟩
          · intro b hb1 hb2
            rcases Nat.lt_or_ge b h1.length with hlt | hge
            · have : heapGet h2 b = heapGet h1 b := by
                simp [heapGet, pres2 b hlt]
              rw [this]
              exact dictRB_mono _ (Nat.le_refl _) len2 (reg1 b hb1 hlt)
            · exact dictRB_mono _ len1 (Nat.le_refl _) (reg2 b hge hb2)

end

theorem heapGet_set_self (h : Heap) (a : Nat) (d : List (String × HVal))
    (ha : a < h.length) : heapGet (h.set a d) a = d := by
  simp [heapGet, List.getElem?_set_self ha]

theorem heapGet_set_ne (h : Heap) (a : Nat) (d : List (String × HVal)) (b : Nat)
    (hne : a ≠ b) : heapGet (h.set a d) b = heapGet h b := by
  simp [heapGet, List.getElem?_set_ne hne]

mutual

/-- The traversal writes only to dict cells at addresses `≥ lo` (the freshly cloned
region): every address below `lo` is untouched, no allocation happens, and the
region stays closed. -/
theorem travFields_frame (fuel : Nat) (h : Heap) (a : Nat) (path : String)
    (fields : List (String × HVal)) (h' : Heap)
    (res : Except PyErr (List (String × CsvSection))) (lo : Nat)
    (hc : travFields fuel h a path fields = some (h', res))
    (hlo : lo ≤ a) (hlt : a < h.length)
    (hreg : ∀ b, lo ≤ b → b < h.length → dictRB lo h.length (heapGet h b) = true)
    (hflds : dictRB lo h.length fields = true) :
    (∀ b, b < lo → h'[b]? = h[b]?) ∧ h'.length = h.length ∧
    (∀ b, lo ≤ b → b < h'.length → dictRB lo h'.length (heapGet h' b) = true) := by
  match fuel with
  | 0 => simp [travFields] at hc
  | fuel + 1 =>
    cases fields with
    | nil =>
      simp only [travFields, Option.some.injEq, Prod.mk.injEq] at hc
      obtain ⟨hh, hr⟩ := hc
      subst hh
      exact ⟨fun _ _ => rfl, rfl, hreg⟩
    | cons kv rest =>
      obtain ⟨key, value⟩ := kv
      simp only [dictRB, Bool.and_eq_true] at hflds
      obtain ⟨hval, hrest⟩ := hflds
      cases value with
      | arr xs =>
        simp only [travFields] at hc
        cases hcv : hConvert fuel h xs with
        | none => simp [hcv] at hc
        | some r =>
          cases r with
          | error e =>
            simp only [hcv, Option.some.injEq, Prod.mk.injEq] at hc
            obtain ⟨hh, hr⟩ := hc
            subst hh
            exact ⟨fun _ _ => rfl, rfl, hreg⟩
          | ok csvOpt =>
            cases csvOpt with
            | some s =>
              simp only [hcv] at hc
              by_cases hs : s ≠ ""
              · rw [if_pos hs] at hc
                have hlen_set : (h.set a (dictSet (heapGet h a) key
                    (.str ("[See CSV data for " ++ key ++ " below]")))).length =
                    h.length := List.length_set h a _
                have hreg_set : ∀ b, lo ≤ b →
                    b < (h.set a (dictSet (heapGet h a) key
                      (.str ("[See CSV data for " ++ key ++ " below]")))).length →
                    dictRB lo (h.set a (dictSet (heapGet h a) key
                      (.str ("[See CSV data for " ++ key ++ " below]")))).length
                      (heapGet (h.set a (dictSet (heapGet h a) key
                        (.str ("[See CSV data for " ++ key ++ " below]")))) b) = true := by
                  intro b hb1 hb2
                  rw [hlen_set] at hb2 ⊢
                  by_cases hba : b = a
                  · subst hba
                    rw [heapGet_set_self h b _ hb2]
                    exact dictRB_dictSet _ key _ (hreg b hb1 hb2) (by simp [valRB])
                  · rw [heapGet_set_ne h a _ b (fun e => hba e.symm)]
                    exact hreg b hb1 hb2
                cases hr2 : travFields fuel (h.set a (dictSet (heapGet h a) key
                    (.str ("[See CSV data for " ++ key ++ " below]")))) a path rest with
                | none => simp [hr2] at hc
                | some p2 =>
                  obtain ⟨h2, r2⟩ := p2
                  obtain ⟨p2', l2, reg2⟩ := travFields_frame fuel _ a path rest h2 r2 lo
                    hr2 hlo (by rw [hlen_set]; exact hlt) hreg_set
                    (by rw [hlen_set]; exact hrest)
                  have hfin : h2.length = h.length := l2.trans hlen_set
                  have hpres : ∀ b, b < lo → h2[b]? = h[b]? := by
                    intro b hb
                    rw [p2' b hb, List.getElem?_set_ne (by omega)]
                  cases r2 with
                  | error e =>
                    simp only [hr2, Option.some.injEq, Prod.mk.injEq] at hc
                    obtain ⟨hh, hr⟩ := hc
                    subst hh
                    exact ⟨hpres, hfin, reg2⟩
                  | ok secs =>
                    simp only [hr2, Option.some.injEq, Prod.mk.injEq] at hc
                    obtain ⟨hh, hr⟩ := hc
                    subst hh
                    exact ⟨hpres, hfin, reg2⟩
              · rw [if_neg hs] at hc
                exact travFields_frame fuel h a path rest h' res lo hc hlo hlt hreg hrest
            | none =>
              simp only [hcv] at hc
              exact travFields_frame fuel h a path rest h' res lo hc hlo hlt hreg hrest
      | ref b =>
        simp only [valRB, Bool.and_eq_true, decide_eq_true_eq] at hval
        simp only [travFields] at hc
        cases htd : travDict fuel h b (if path = "" then key else path ++ "." ++ key) with
        | none => simp [htd] at hc
        | some p1 =>
          obtain ⟨h1, r1⟩ := p1
          obtain ⟨p1', l1, reg1⟩ := travDict_frame fuel h b _ h1 r1 lo htd hval.1
            hval.2 hreg
          cases r1 with
          | error e =>
            simp only [htd, Option.some.injEq, Prod.mk.injEq] at hc
            obtain ⟨hh, hr⟩ := hc
            subst hh
            exact ⟨p1', l1, reg1⟩
          | ok secs1 =>
            simp only [htd] at hc
            cases hr2 : travFields fuel h1 a path rest with
            | none => simp [hr2] at hc
            | some p2 =>
              obtain ⟨h2, r2⟩ := p2
              obtain ⟨p2', l2, reg2⟩ := travFields_frame fuel h1 a path rest h2 r2 lo
                hr2 hlo (by rw [l1]; exact hlt) reg1 (by rw [l1]; exact hrest)
              have hpres : ∀ c, c < lo → h2[c]? = h[c]? := by
                intro c hcb
                rw [p2' c hcb, p1' c hcb]
              have hfin : h2.length = h.length := l2.trans l1
              cases r2 with
              | error e =>
                simp only [hr2, Option.some.injEq, Prod.mk.injEq] at hc
                obtain ⟨hh, hr⟩ := hc
                subst hh
                exact ⟨hpres, hfin, reg2⟩
              | ok secs2 =>
                simp only [hr2, Option.some.injEq, Prod.mk.injEq] at hc
                obtain ⟨hh, hr⟩ := hc
                subst hh
                exact ⟨hpres, hfin, reg2⟩
      | null =>
        simp only [travFields] at hc
        exact travFields_frame fuel h a path rest h' res lo hc hlo hlt hreg hrest
      | bool bb =>
        simp only [travFields] at hc
        exact travFields_frame fuel h a path rest h' res lo hc hlo hlt hreg hrest
      | int n =>
        simp only [travFields] at hc
        exact travFields_frame fuel h a path rest h' res lo hc hlo hlt hreg hrest
      | str s =>
        simp only [travFields] at hc
        exact travFields_frame fuel h a path rest h' res lo hc hlo hlt hreg hrest

theorem travDict_frame (fuel : Nat) (h : Heap) (a : Nat) (path : String) (h' : Heap)
    (res : Except PyErr (List (String × CsvSection))) (lo : Nat)
    (hc : travDict fuel h a path = some (h', res))
    (hlo : lo ≤ a) (hlt : a < h.length)
    (hreg : ∀ b, lo ≤ b → b < h.length → dictRB lo h.length (heapGet h b) = true) :
    (∀ b, b < lo → h'[b]? = h[b]?) ∧ h'.length = h.length ∧
    (∀ b, lo ≤ b → b < h'.length → dictRB lo h'.length (heapGet h' b) = true) := by
  match fuel with
  | 0 => simp [travDict] at hc
  | fuel + 1 =>
    simp only [travDict] at hc
    exact travFields_frame fuel h a path (heapGet h a) h' res lo hc hlo hlt hreg
      (hreg a hlo hlt)

end

/-- C7: `process_json_data_to_csv` never mutates its input. For every heap, every
input value and any sufficient fuel, if the call completes (successfully or by
raising) then every heap cell that existed before the call — in particular every
dict reachable from the input — still holds exactly its original contents; all
placeholder rewriting happens on the freshly allocated deep clone only. -/
theorem process_no_mutation (fuel : Nat) (h : Heap) (data : HVal) (h2 : Heap)
    (res : Except PyErr (HVal × List (String × CsvSection)))
    (hp : processHeap fuel h data = some (h2, res)) :
    ∀ a, a < h.length → h2[a]? = h[a]? := by
  simp only [processHeap] at hp
  cases hcv : copyVal fuel h data with
  | none => simp [hcv] at hp
  | some p =>
    obtain ⟨h1, cloned⟩ := p
    obtain ⟨pres1, len1, vrb, region⟩ := copyVal_spec fuel h data h1 cloned hcv
    cases cloned with
    | ref r =>
      simp only [valRB, Bool.and_eq_true, decide_eq_true_eq] at vrb
      simp only [hcv] at hp
      cases htd : travDict fuel h1 r "" with
      | none => simp [htd] at hp
      | some q =>
        obtain ⟨hf, rf⟩ := q
        obtain ⟨pres2, len2, reg2⟩ := travDict_frame fuel h1 r "" hf rf h.length htd
          vrb.1 vrb.2 region
        cases rf with
        | error e =>
          simp only [htd, Option.some.injEq, Prod.mk.injEq] at hp
          obtain ⟨hh, hr⟩ := hp
          subst hh
          intro a ha
          rw [pres2 a ha, pres1 a ha]
        | ok csv_data =>
          simp only [htd, Option.some.injEq, Prod.mk.injEq] at hp
          obtain ⟨hh, hr⟩ := hp
          subst hh
          intro a ha
          rw [pres2 a ha, pres1 a ha]
    | null =>
      simp only [hcv, Option.some.injEq, Prod.mk.injEq] at hp
      obtain ⟨hh, hr⟩ := hp
      subst hh
      exact fun a ha => pres1 a ha
    | bool b =>
      simp only [hcv, Option.some.injEq, Prod.mk.injEq] at hp
      obtain ⟨hh, hr⟩ := hp
      subst hh
      exact fun a ha => pres1 a ha
    | int n =>
      simp only [hcv, Option.some.injEq, Prod.mk.injEq] at hp
      obtain ⟨hh, hr⟩ := hp
      subst hh
      exact fun a ha => pres1 a ha
    | str s =>
      simp only [hcv, Option.some.injEq, Prod.mk.injEq] at hp
      obtain ⟨hh, hr⟩ := hp
      subst hh
      exact fun a ha => pres1 a ha
    | arr xs =>
      simp only [hcv, Option.some.injEq, Prod.mk.injEq] at hp
      obtain ⟨hh, hr⟩ := hp
      subst hh
      exact fun a ha => pres1 a ha

/-- A concrete pre-call heap: the input dict at address 0, whose `"campaigns"` array
holds the dicts at addresses 1 and 2. -/
def heapEx : Heap :=
  [[("campaigns", .arr [.ref 1, .ref 2])],
   [("name", .str "A"), ("spend", .int 100)],
   [("name", .str "B"), ("spend", .int 200)]]

/-- The heap after running `process_json_data_to_csv` on `heapEx`. -/
def heapExFinal : Heap :=
  match processHeap 20 heapEx (.ref 0) with
  | some (hf, _) => hf
  | none => []

/-- Witness for C7: on `heapEx` the call completes, rewrites only the cloned dict
(address 5), and addresses 0-2 — the caller's objects — are untouched. -/
theorem process_no_mutation_witness :
    processHeap 20 heapEx (.ref 0) =
      some (heapExFinal,
        .ok (.ref 5, [("campaigns", ⟨"name,spend\nA,100\nB,200\n", 2, "campaigns"⟩)])) ∧
    heapGet heapExFinal 5 = [("campaigns", .str "[See CSV data for campaigns below]")] ∧
    heapExFinal[0]? = heapEx[0]? ∧ heapExFinal[1]? = heapEx[1]? ∧
    heapExFinal[2]? = heapEx[2]? := by
  refine ⟨rfl, rfl, ?_, ?_, ?_⟩
  · exact process_no_mutation 20 heapEx (.ref 0) heapExFinal
      (.ok (.ref 5, [("campaigns", ⟨"name,spend\nA,100\nB,200\n", 2, "campaigns"⟩)]))
      rfl 0 (by decide)
  · exact process_no_mutation 20 heapEx (.ref 0) heapExFinal
      (.ok (.ref 5, [("campaigns", ⟨"name,spend\nA,100\nB,200\n", 2, "campaigns"⟩)]))
      rfl 1 (by decide)
  · exact process_no_mutation 20 heapEx (.ref 0) heapExFinal
      (.ok (.ref 5, [("campaigns", ⟨"name,spend\nA,100\nB,200\n", 2, "campaigns"⟩)]))
      rfl 2 (by decide)

end ChatBot
